import Mathlib

/-!
Shallow embedding of the child-process reaper of src/process/unix/reap.rs:
the polling loop of the Future implementation, the Drop implementation that
pushes an unresolved child to the orphan queue, the Kill and Deref
delegations, and observation counters mirroring the counters of the test
mocks in the same file (MockStream.total_polls, MockWait.total_waits,
MockQueue.total_reaps, MockQueue.all_enqueued).

The signal stream and the child handle are modelled as oracles: functions
from the index of the call (how many such calls happened before) to the
answer that call returns.  Exit statuses, signal numbers and error values
are modelled as natural numbers.  A poll call is modelled with fuel, since
the source loop need not terminate; `none` means the fuel ran out before
the loop returned.
-/

/-- Answer of one call to the signal stream's poll_next, as the source sees
it around its try-operator: Pending, Ready(Some(Ok(n))), Ready(Some(Err(e)))
or Ready(None). -/
inductive SigItem where
  | pending : SigItem
  | readyOk (n : Nat) : SigItem
  | readyErr (e : Nat) : SigItem
  | readyNone : SigItem
deriving DecidableEq, Repr

/-- Answer of one call to the child handle's try_wait: Ok(None),
Ok(Some(s)) or Err(e). -/
inductive WaitResp where
  | running : WaitResp
  | exited (s : Nat) : WaitResp
  | err (e : Nat) : WaitResp
deriving DecidableEq, Repr

/-- Environment of one Reaper: the answer of the signal stream to its k-th
poll_next and the answer of the child handle to its k-th try_wait (the
final try_wait of drop included, in the same numbering). -/
structure Env where
  signal : Nat → SigItem
  child : Nat → WaitResp

/-- State of a Reaper: the Option-wrapped inner child handle (none once
taken out at drop) and counters of the three observable effects, counted
exactly as the test mocks of the source count them. -/
structure Reaper where
  inner : Option Unit
  sigPolls : Nat
  sweeps : Nat
  waits : Nat
deriving DecidableEq, Repr

/-- Reaper::new: inner is Some, nothing has been polled yet. -/
def newReaper : Reaper :=
  { inner := some (), sigPolls := 0, sweeps := 0, waits := 0 }

/-- Observable events of one poll-loop iteration, in program order. -/
inductive Ev where
  | sigPoll : Ev
  | sweep : Ev
  | wait : Ev
deriving DecidableEq, Repr

/-- Event list of a poll-loop iteration that reaches its try_wait. -/
def fullEvs : List Ev := [Ev.sigPoll, Ev.sweep, Ev.wait]

/-- How one iteration of the poll loop ends: continue the loop, or return
Pending, Ready(Ok(s)), Ready(Err(e)); panicked models the unwrap of a
missing inner handle. -/
inductive IterOut where
  | cont : IterOut
  | pending : IterOut
  | readyOk (s : Nat) : IterOut
  | readyErr (e : Nat) : IterOut
  | panicked : IterOut
deriving DecidableEq, Repr

/-- Result of a completed Reaper::poll call. -/
inductive PollRes where
  | pending : PollRes
  | readyOk (s : Nat) : PollRes
  | readyErr (e : Nat) : PollRes
  | panicked : PollRes
deriving DecidableEq, Repr

/-- Tail of a poll-loop iteration after the signal-stream poll did not
short-circuit with Ready(Some(Err)): reap_orphans, then the unwrap of
inner, then try_wait; registeredInterest tells whether the stream answered
Pending.  Mirrors lines 84-98 of reap.rs. -/
def afterSignal (env : Env) (r : Reaper) (registeredInterest : Bool) :
    IterOut × Reaper × List Ev :=
  match r.inner with
  | none => (.panicked, { r with sweeps := r.sweeps + 1 }, [Ev.sigPoll, Ev.sweep])
  | some _ =>
    match env.child r.waits with
    | .exited s =>
      (.readyOk s,
        { r with sweeps := r.sweeps + 1, waits := r.waits + 1 }, fullEvs)
    | .err e =>
      (.readyErr e,
        { r with sweeps := r.sweeps + 1, waits := r.waits + 1 }, fullEvs)
    | .running =>
      if registeredInterest then
        (.pending,
          { r with sweeps := r.sweeps + 1, waits := r.waits + 1 }, fullEvs)
      else
        (.cont,
          { r with sweeps := r.sweeps + 1, waits := r.waits + 1 }, fullEvs)

/-- One iteration of the loop of Reaper::poll (lines 62-99 of reap.rs).
The stream is polled first; Ready(Some(Err(e))) short-circuits through the
try-operator before the sweep and the wait; Pending arms interest
(registeredInterest true); Ready(Some(Ok)) and Ready(None) leave
registeredInterest false. -/
def iteration (env : Env) (r : Reaper) : IterOut × Reaper × List Ev :=
  match env.signal r.sigPolls with
  | .readyErr e =>
    (.readyErr e, { r with sigPolls := r.sigPolls + 1 }, [Ev.sigPoll])
  | .pending => afterSignal env { r with sigPolls := r.sigPolls + 1 } true
  | .readyOk _ => afterSignal env { r with sigPolls := r.sigPolls + 1 } false
  | .readyNone => afterSignal env { r with sigPolls := r.sigPolls + 1 } false

/-- A whole call to Reaper::poll, with fuel bounding the number of loop
iterations; none means the fuel ran out before the loop returned.  Returns
the result, the state after the call, and the per-iteration event trace. -/
def pollFuel : Nat → Env → Reaper → Option (PollRes × Reaper × List (List Ev))
  | 0, _, _ => none
  | fuel + 1, env, r =>
    match iteration env r with
    | (.cont, r1, evs) =>
      match pollFuel fuel env r1 with
      | none => none
      | some (res, r2, tr) => some (res, r2, evs :: tr)
    | (.pending, r1, evs) => some (.pending, r1, [evs])
    | (.readyOk s, r1, evs) => some (.readyOk s, r1, [evs])
    | (.readyErr e, r1, evs) => some (.readyErr e, r1, [evs])
    | (.panicked, r1, evs) => some (.panicked, r1, [evs])

/-- Drop for Reaper (lines 118-125 of reap.rs): one final try_wait on the
unwrapped inner handle; only Ok(Some) skips the hand-off, anything else
takes the handle out and pushes it to the orphan queue.  Returns the state
after drop and the number of push_orphan calls performed; none models the
unwrap panicking because inner was already taken. -/
def dropReaper (env : Env) (r : Reaper) : Option (Reaper × Nat) :=
  match r.inner with
  | none => none
  | some _ =>
    match env.child r.waits with
    | .exited _ => some ({ r with waits := r.waits + 1 }, 0)
    | .running => some ({ r with waits := r.waits + 1, inner := none }, 1)
    | .err _ => some ({ r with waits := r.waits + 1, inner := none }, 1)

/-- Kill for Reaper (lines 108-110 of reap.rs): delegates to the unwrapped
inner handle; none models the unwrap panicking. -/
def killReaper (r : Reaper) : Option Reaper :=
  match r.inner with
  | none => none
  | some _ => some r

/-- Deref for Reaper (lines 31-33 of reap.rs): the unwrapped inner handle;
none models the unwrap panicking. -/
def derefReaper (r : Reaper) : Option Unit :=
  r.inner

/-- State change of one continuing poll-loop iteration: one stream poll,
one sweep, one wait. -/
def advance (r : Reaper) : Reaper :=
  { r with sigPolls := r.sigPolls + 1, sweeps := r.sweeps + 1,
           waits := r.waits + 1 }

/-- State after n continuing poll-loop iterations. -/
def advanceN : Nat → Reaper → Reaper
  | 0, r => r
  | n + 1, r => advanceN n (advance r)

/-- Signal answers on which the iteration returns regardless of the child:
Pending and Ready(Some(Err)). -/
def sigStopsB : SigItem → Bool
  | .pending => true
  | .readyErr _ => true
  | .readyOk _ => false
  | .readyNone => false

/-- Child answers on which the iteration returns: Ok(Some) and Err. -/
def childStopsB : WaitResp → Bool
  | .running => false
  | .exited _ => true
  | .err _ => true

/-- The loop iteration started in state r reaches a terminating outcome:
the stream answers Pending or Ready(Some(Err)), or the child answers
Ok(Some) or Err. -/
def termAtB (env : Env) (r : Reaper) : Bool :=
  sigStopsB (env.signal r.sigPolls) || childStopsB (env.child r.waits)

/-- The tail of an iteration never touches the inner slot. -/
lemma afterSignal_inner (env : Env) (r : Reaper) (b : Bool) :
    (afterSignal env r b).2.1.inner = r.inner := by
  unfold afterSignal
  cases r.inner <;> cases env.child r.waits <;> cases b <;> simp

/-- One poll-loop iteration never touches the inner slot. -/
lemma iteration_inner (env : Env) (r : Reaper) :
    (iteration env r).2.1.inner = r.inner := by
  unfold iteration
  cases env.signal r.sigPolls <;> simp [afterSignal_inner]

/-- One poll-loop iteration polls the stream exactly once. -/
lemma iteration_sigPolls (env : Env) (r : Reaper) :
    (iteration env r).2.1.sigPolls = r.sigPolls + 1 := by
  unfold iteration afterSignal
  cases env.signal r.sigPolls <;> cases r.inner <;>
    cases env.child r.waits <;> simp

/-- One poll-loop iteration performs at most one try_wait. -/
lemma iteration_waits_le (env : Env) (r : Reaper) :
    (iteration env r).2.1.waits ≤ r.waits + 1 := by
  unfold iteration afterSignal
  cases env.signal r.sigPolls <;> cases r.inner <;>
    cases env.child r.waits <;> simp

/-- One poll-loop iteration never forgets a try_wait already performed. -/
lemma iteration_waits_ge (env : Env) (r : Reaper) :
    r.waits ≤ (iteration env r).2.1.waits := by
  unfold iteration afterSignal
  cases env.signal r.sigPolls <;> cases r.inner <;>
    cases env.child r.waits <;> simp

/-- If the inner handle is present and the stream does not answer
Ready(Some(Err)), the iteration performs exactly one try_wait. -/
lemma iteration_waits_eq (env : Env) (r : Reaper) (hi : r.inner = some ())
    (hs : ∀ e, env.signal r.sigPolls ≠ SigItem.readyErr e) :
    (iteration env r).2.1.waits = r.waits + 1 := by
  unfold iteration afterSignal
  cases h : env.signal r.sigPolls <;> rw [hi] <;>
    cases env.child r.waits <;> simp
  all_goals exact absurd h (hs _)

/-- A continuing iteration advances the counters by one each, and happens
only when the stream answered Ready(Some(Ok)) or Ready(None) and the child
was still running. -/
lemma iteration_cont_state (env : Env) (r : Reaper) (r1 : Reaper)
    (evs : List Ev) (h : iteration env r = (.cont, r1, evs)) :
    r1 = advance r ∧ evs = fullEvs ∧ env.child r.waits = .running ∧
      sigStopsB (env.signal r.sigPolls) = false := by
  unfold iteration afterSignal at h
  cases hs : env.signal r.sigPolls <;> rw [hs] at h <;>
    cases hi : r.inner <;> simp [hi] at h <;>
      cases hc : env.child r.waits <;> simp [hc] at h
  all_goals simp [advance, ← h.1, h.2, hi, hc, hs, sigStopsB]

/-- When the inner handle is present, the stream answers
Ready(Some(Ok)) or Ready(None), and the child is still running, the
iteration continues the loop. -/
lemma iteration_cont_of (env : Env) (r : Reaper) (hi : r.inner = some ())
    (hs : sigStopsB (env.signal r.sigPolls) = false)
    (hc : env.child r.waits = .running) :
    iteration env r = (.cont, advance r, fullEvs) := by
  unfold iteration afterSignal
  cases h : env.signal r.sigPolls <;> simp [sigStopsB, h] at hs ⊢ <;>
    rw [hi] <;> simp [hc, advance, hi]

/-- When the inner handle is present, a poll-loop iteration does not
panic. -/
lemma iteration_not_panicked (env : Env) (r : Reaper)
    (hi : r.inner = some ()) : (iteration env r).1 ≠ .panicked := by
  unfold iteration afterSignal
  cases env.signal r.sigPolls <;> rw [hi] <;>
    cases env.child r.waits <;> simp

/-- Case analysis of one poll-loop iteration when the inner handle is
present: either the stream answers Ready(Some(Err(e))) and the iteration
returns Ready(Err(e)) at once, or the iteration sweeps, waits once, and its
outcome is decided by the child's answer. -/
lemma iteration_cases (env : Env) (r : Reaper) (hi : r.inner = some ()) :
    (∃ e, env.signal r.sigPolls = SigItem.readyErr e ∧
      iteration env r =
        (.readyErr e, { r with sigPolls := r.sigPolls + 1 }, [Ev.sigPoll])) ∨
    ((env.child r.waits = .running ∧
        ((iteration env r).1 = .cont ∨ (iteration env r).1 = .pending)) ∨
      (∃ s, env.child r.waits = .exited s ∧
        (iteration env r).1 = .readyOk s) ∨
      (∃ e, env.child r.waits = .err e ∧
        (iteration env r).1 = .readyErr e)) ∧
      (iteration env r).2.1 = advance r ∧ (iteration env r).2.2 = fullEvs := by
  cases hs : env.signal r.sigPolls <;>
    cases hc : env.child r.waits <;>
      simp [iteration, afterSignal, hi, hs, hc, advance]

/-- A completed poll call never touches the inner slot. -/
lemma pollFuel_inner : ∀ (fuel : Nat) (env : Env) (r : Reaper)
    (res : PollRes) (r2 : Reaper) (tr : List (List Ev)),
    pollFuel fuel env r = some (res, r2, tr) → r2.inner = r.inner := by
  intro fuel
  induction fuel with
  | zero => intro env r res r2 tr h; simp [pollFuel] at h
  | succ n ih =>
    intro env r res r2 tr h
    unfold pollFuel at h
    rcases hit : iteration env r with ⟨out, r1, evs⟩
    have hinner1 : r1.inner = r.inner := by
      have := iteration_inner env r; rw [hit] at this; exact this
    rw [hit] at h
    cases out with
    | cont =>
      rcases hp : pollFuel n env r1 with _ | ⟨⟨res1, r3, tr1⟩⟩ <;>
        simp [hp] at h
      obtain ⟨h1, h2, h3⟩ := h
      subst h2
      have hin := ih env r1 res1 _ tr1 hp
      rw [hin]
      exact hinner1
    | pending => simp at h; rw [← h.2.1]; exact hinner1
    | readyOk s => simp at h; rw [← h.2.1]; exact hinner1
    | readyErr e => simp at h; rw [← h.2.1]; exact hinner1
    | panicked => simp at h; rw [← h.2.1]; exact hinner1

/-- A completed poll call only increases the stream-poll counter. -/
lemma pollFuel_sig_mono : ∀ (fuel : Nat) (env : Env) (r : Reaper)
    (res : PollRes) (r2 : Reaper) (tr : List (List Ev)),
    pollFuel fuel env r = some (res, r2, tr) → r.sigPolls ≤ r2.sigPolls := by
  intro fuel
  induction fuel with
  | zero => intro env r res r2 tr h; simp [pollFuel] at h
  | succ n ih =>
    intro env r res r2 tr h
    unfold pollFuel at h
    rcases hit : iteration env r with ⟨out, r1, evs⟩
    have hsig1 : r1.sigPolls = r.sigPolls + 1 := by
      have := iteration_sigPolls env r; rw [hit] at this; exact this
    rw [hit] at h
    cases out with
    | cont =>
      rcases hp : pollFuel n env r1 with _ | ⟨⟨res1, r3, tr1⟩⟩ <;>
        simp [hp] at h
      obtain ⟨h1, h2, h3⟩ := h
      have hle := ih env r1 res1 r3 tr1 hp
      subst h2
      omega
    | pending => simp at h; rw [← h.2.1]; omega
    | readyOk s => simp at h; rw [← h.2.1]; omega
    | readyErr e => simp at h; rw [← h.2.1]; omega
    | panicked => simp at h; rw [← h.2.1]; omega

/-- A completed poll call only increases the try_wait counter. -/
lemma pollFuel_waits_mono : ∀ (fuel : Nat) (env : Env) (r : Reaper)
    (res : PollRes) (r2 : Reaper) (tr : List (List Ev)),
    pollFuel fuel env r = some (res, r2, tr) → r.waits ≤ r2.waits := by
  intro fuel
  induction fuel with
  | zero => intro env r res r2 tr h; simp [pollFuel] at h
  | succ n ih =>
    intro env r res r2 tr h
    unfold pollFuel at h
    rcases hit : iteration env r with ⟨out, r1, evs⟩
    have hw1 : r.waits ≤ r1.waits := by
      have := iteration_waits_ge env r; rw [hit] at this; exact this
    rw [hit] at h
    cases out with
    | cont =>
      rcases hp : pollFuel n env r1 with _ | ⟨⟨res1, r3, tr1⟩⟩ <;>
        simp [hp] at h
      obtain ⟨h1, h2, h3⟩ := h
      have hle := ih env r1 res1 r3 tr1 hp
      subst h2
      omega
    | pending => simp at h; rw [← h.2.1]; omega
    | readyOk s => simp at h; rw [← h.2.1]; omega
    | readyErr e => simp at h; rw [← h.2.1]; omega
    | panicked => simp at h; rw [← h.2.1]; omega


/-- Inside one completed poll call, every try_wait answered strictly before
the last one reported "still running"; and whenever the child reported
Ok(Some(t)) to the call's last try_wait, the call resolved with
Ready(Ok(t)) and polled the stream exactly as often as it waited. -/
lemma pollFuel_run : ∀ (fuel : Nat) (env : Env) (r : Reaper)
    (res : PollRes) (r2 : Reaper) (tr : List (List Ev)),
    r.inner = some () → pollFuel fuel env r = some (res, r2, tr) →
    (∀ j, r.waits ≤ j → j + 1 < r2.waits → env.child j = .running) ∧
    (∀ t, r.waits < r2.waits → env.child (r2.waits - 1) = .exited t →
      res = .readyOk t ∧ r2.sigPolls + r.waits = r2.waits + r.sigPolls) := by
  intro fuel
  induction fuel with
  | zero => intro env r res r2 tr hi h; simp [pollFuel] at h
  | succ n ih =>
    intro env r res r2 tr hi h
    unfold pollFuel at h
    rcases hit : iteration env r with ⟨out, r1, evs⟩
    rw [hit] at h
    rcases iteration_cases env r hi with ⟨e, hsig, hitEq⟩ |
      ⟨hchild, hst, hevs⟩
    · rw [hit] at hitEq
      simp only [Prod.mk.injEq] at hitEq
      obtain ⟨ho, hr1, hev⟩ := hitEq
      subst ho
      simp at h
      obtain ⟨hres, hr2, htr⟩ := h
      have hw : r2.waits = r.waits := by rw [← hr2, hr1]
      refine ⟨fun j hj hj2 => absurd hj2 (by omega), fun t hlt hex => absurd hlt (by omega)⟩
    · rw [hit] at hchild hst hevs
      simp only [Prod.fst, Prod.snd] at hchild hst hevs
      subst hst
      have hadv : (advance r).inner = some () := hi
      have w1 : (advance r).waits = r.waits + 1 := rfl
      have s1 : (advance r).sigPolls = r.sigPolls + 1 := rfl
      rcases hchild with ⟨hrun, hco⟩ | ⟨s, hexb, ho⟩ | ⟨e, herrb, ho⟩
      · rcases hco with ho | ho <;> subst ho
        · rcases hp : pollFuel n env (advance r) with _ | ⟨⟨res1, r3, tr1⟩⟩ <;>
            simp [hp] at h
          obtain ⟨h1, h2, h3⟩ := h
          obtain ⟨ihA, ihB⟩ := ih env (advance r) res1 r3 tr1 hadv hp
          have hmono := pollFuel_waits_mono n env (advance r) res1 r3 tr1 hp
          rw [h2] at ihA ihB hmono
          rw [h1] at ihB
          constructor
          · intro j hj hj2
            by_cases hjeq : j = r.waits
            · rw [hjeq]; exact hrun
            · exact ihA j (by omega) hj2
          · intro t hlt hex
            by_cases hcase : r.waits + 1 < r2.waits
            · obtain ⟨hres', harith⟩ := ihB t (by omega) hex
              exact ⟨hres', by omega⟩
            · exfalso
              have hwq : r2.waits = r.waits + 1 := by omega
              rw [hwq, Nat.add_sub_cancel, hrun] at hex
              cases hex
        · simp at h
          obtain ⟨h1, h2, h3⟩ := h
          subst h2
          constructor
          · intro j hj hj2
            exfalso; omega
          · intro t hlt hex
            exfalso
            rw [w1, Nat.add_sub_cancel, hrun] at hex
            cases hex
      · subst ho
        simp at h
        obtain ⟨h1, h2, h3⟩ := h
        subst h2
        constructor
        · intro j hj hj2
          exfalso; omega
        · intro t hlt hex
          rw [w1, Nat.add_sub_cancel, hexb] at hex
          obtain rfl : s = t := by cases hex; rfl
          exact ⟨h1.symm, by omega⟩
      · subst ho
        simp at h
        obtain ⟨h1, h2, h3⟩ := h
        subst h2
        constructor
        · intro j hj hj2
          exfalso; omega
        · intro t hlt hex
          exfalso
          rw [w1, Nat.add_sub_cancel, herrb] at hex
          cases hex

/-- A child answer that does not stop the iteration is "still running". -/
lemma childStopsB_false (w : WaitResp) (h : childStopsB w = false) :
    w = .running := by
  cases w <;> simp [childStopsB] at h ⊢

/-- The stream-poll counter after n continuing iterations. -/
lemma advanceN_sigPolls : ∀ (n : Nat) (r : Reaper),
    (advanceN n r).sigPolls = r.sigPolls + n := by
  intro n
  induction n with
  | zero => intro r; rfl
  | succ m ih =>
    intro r
    show (advanceN m (advance r)).sigPolls = r.sigPolls + (m + 1)
    rw [ih]
    simp [advance]
    omega

/-- The try_wait counter after n continuing iterations. -/
lemma advanceN_waits : ∀ (n : Nat) (r : Reaper),
    (advanceN n r).waits = r.waits + n := by
  intro n
  induction n with
  | zero => intro r; rfl
  | succ m ih =>
    intro r
    show (advanceN m (advance r)).waits = r.waits + (m + 1)
    rw [ih]
    simp [advance]
    omega

/-- Continuing iterations never touch the inner slot. -/
lemma advanceN_inner : ∀ (n : Nat) (r : Reaper),
    (advanceN n r).inner = r.inner := by
  intro n
  induction n with
  | zero => intro r; rfl
  | succ m ih =>
    intro r
    show (advanceN m (advance r)).inner = r.inner
    rw [ih]
    rfl

/-- When the iteration about to run reaches a terminating outcome, fuel 1
already makes the poll call return. -/
lemma pollFuel_total_here (env : Env) (r : Reaper) (hi : r.inner = some ())
    (ht : termAtB env r = true) :
    ∃ fuel out, pollFuel fuel env r = some out := by
  refine ⟨1, ?_⟩
  rcases hit : iteration env r with ⟨out, r1, evs⟩
  cases out with
  | cont =>
    exfalso
    obtain ⟨hr1, hev, hrun, hsig⟩ := iteration_cont_state env r r1 evs hit
    rw [termAtB, hsig, hrun] at ht
    simp [childStopsB] at ht
  | pending => exact ⟨(.pending, r1, [evs]), by simp [pollFuel, hit]⟩
  | readyOk s => exact ⟨(.readyOk s, r1, [evs]), by simp [pollFuel, hit]⟩
  | readyErr e => exact ⟨(.readyErr e, r1, [evs]), by simp [pollFuel, hit]⟩
  | panicked => exact ⟨(.panicked, r1, [evs]), by simp [pollFuel, hit]⟩

/-- When the n-th iteration state reaches a terminating outcome, some fuel
makes the whole poll call return. -/
lemma pollFuel_total_of_termAt : ∀ (n : Nat) (env : Env) (r : Reaper),
    r.inner = some () → termAtB env (advanceN n r) = true →
    ∃ fuel out, pollFuel fuel env r = some out := by
  intro n
  induction n with
  | zero =>
    intro env r hi ht
    simp only [advanceN] at ht
    exact pollFuel_total_here env r hi ht
  | succ m ih =>
    intro env r hi ht
    by_cases h0 : termAtB env r = true
    · exact pollFuel_total_here env r hi h0
    · have h0f : termAtB env r = false := by
        cases hb : termAtB env r
        · rfl
        · exact absurd hb h0
      rw [termAtB] at h0f
      obtain ⟨hsig, hch⟩ := Bool.or_eq_false_iff.mp h0f
      have hrun := childStopsB_false _ hch
      have hcont := iteration_cont_of env r hi hsig hrun
      have hadv : (advance r).inner = some () := hi
      have hadvt : termAtB env (advanceN m (advance r)) = true := ht
      obtain ⟨fuel, ⟨res, r2, tr⟩, hp⟩ := ih env (advance r) hadv hadvt
      exact ⟨fuel + 1, (res, r2, fullEvs :: tr), by simp [pollFuel, hcont, hp]⟩

/-- A completed poll call means some iteration state reached a terminating
outcome. -/
lemma termAt_of_pollFuel : ∀ (fuel : Nat) (env : Env) (r : Reaper),
    r.inner = some () → ∀ out, pollFuel fuel env r = some out →
    ∃ n, termAtB env (advanceN n r) = true := by
  intro fuel
  induction fuel with
  | zero => intro env r hi out h; simp [pollFuel] at h
  | succ m ih =>
    intro env r hi out h
    by_cases h0 : termAtB env r = true
    · exact ⟨0, h0⟩
    · have h0f : termAtB env r = false := by
        cases hb : termAtB env r
        · rfl
        · exact absurd hb h0
      rw [termAtB] at h0f
      obtain ⟨hsig, hch⟩ := Bool.or_eq_false_iff.mp h0f
      have hrun := childStopsB_false _ hch
      have hcont := iteration_cont_of env r hi hsig hrun
      unfold pollFuel at h
      rw [hcont] at h
      have hadv : (advance r).inner = some () := hi
      rcases hp : pollFuel m env (advance r) with _ | ⟨⟨res1, r3, tr1⟩⟩ <;>
        simp [hp] at h
      obtain ⟨n1, ht⟩ := ih env (advance r) hadv (res1, r3, tr1) hp
      exact ⟨n1 + 1, ht⟩

/-- With the inner handle present, a completed poll call never reports the
panicked outcome: the unwrap in poll always succeeds. -/
lemma pollFuel_not_panicked : ∀ (fuel : Nat) (env : Env) (r : Reaper)
    (res : PollRes) (r2 : Reaper) (tr : List (List Ev)),
    r.inner = some () → pollFuel fuel env r = some (res, r2, tr) →
    res ≠ .panicked := by
  intro fuel
  induction fuel with
  | zero => intro env r res r2 tr hi h; simp [pollFuel] at h
  | succ m ih =>
    intro env r res r2 tr hi h
    unfold pollFuel at h
    rcases hit : iteration env r with ⟨out, r1, evs⟩
    have hr1i : r1.inner = some () := by
      have hpre := iteration_inner env r
      rw [hit] at hpre
      rw [hpre]
      exact hi
    rw [hit] at h
    cases out with
    | cont =>
      rcases hp : pollFuel m env r1 with _ | ⟨⟨res1, r3, tr1⟩⟩ <;>
        simp [hp] at h
      obtain ⟨h1, h2, h3⟩ := h
      rw [← h1]
      exact ih env r1 res1 r3 tr1 hr1i hp
    | pending => simp at h; rw [← h.1]; simp
    | readyOk s => simp at h; rw [← h.1]; simp
    | readyErr e => simp at h; rw [← h.1]; simp
    | panicked =>
      exfalso
      have hnp := iteration_not_panicked env r hi
      rw [hit] at hnp
      simp at hnp

/-- A completed poll call polls the stream at least once. -/
lemma pollFuel_sig_strict : ∀ (fuel : Nat) (env : Env) (r : Reaper)
    (res : PollRes) (r2 : Reaper) (tr : List (List Ev)),
    pollFuel fuel env r = some (res, r2, tr) →
    r.sigPolls + 1 ≤ r2.sigPolls := by
  intro fuel env r res r2 tr h
  cases fuel with
  | zero => simp [pollFuel] at h
  | succ m =>
    unfold pollFuel at h
    rcases hit : iteration env r with ⟨out, r1, evs⟩
    have hs1 : r1.sigPolls = r.sigPolls + 1 := by
      have hpre := iteration_sigPolls env r; rw [hit] at hpre; exact hpre
    rw [hit] at h
    cases out with
    | cont =>
      rcases hp : pollFuel m env r1 with _ | ⟨⟨res1, r3, tr1⟩⟩ <;>
        simp [hp] at h
      obtain ⟨h1, h2, h3⟩ := h
      have hmono := pollFuel_sig_mono m env r1 res1 r3 tr1 hp
      subst h2
      omega
    | pending => simp at h; rw [← h.2.1]; omega
    | readyOk s => simp at h; rw [← h.2.1]; omega
    | readyErr e => simp at h; rw [← h.2.1]; omega
    | panicked => simp at h; rw [← h.2.1]; omega

/-- A completed poll call whose first stream answer is not
Ready(Some(Err)) performs at least one try_wait. -/
lemma pollFuel_waits_strict : ∀ (fuel : Nat) (env : Env) (r : Reaper)
    (res : PollRes) (r2 : Reaper) (tr : List (List Ev)),
    r.inner = some () →
    (∀ e, env.signal r.sigPolls ≠ SigItem.readyErr e) →
    pollFuel fuel env r = some (res, r2, tr) →
    r.waits + 1 ≤ r2.waits := by
  intro fuel env r res r2 tr hi hne h
  cases fuel with
  | zero => simp [pollFuel] at h
  | succ m =>
    unfold pollFuel at h
    rcases hit : iteration env r with ⟨out, r1, evs⟩
    have hw1 : r1.waits = r.waits + 1 := by
      have hpre := iteration_waits_eq env r hi hne; rw [hit] at hpre
      exact hpre
    rw [hit] at h
    cases out with
    | cont =>
      rcases hp : pollFuel m env r1 with _ | ⟨⟨res1, r3, tr1⟩⟩ <;>
        simp [hp] at h
      obtain ⟨h1, h2, h3⟩ := h
      have hmono := pollFuel_waits_mono m env r1 res1 r3 tr1 hp
      subst h2
      omega
    | pending => simp at h; rw [← h.2.1]; omega
    | readyOk s => simp at h; rw [← h.2.1]; omega
    | readyErr e => simp at h; rw [← h.2.1]; omega
    | panicked => simp at h; rw [← h.2.1]; omega

/-- The events of one iteration take one of three shapes, each starting
with the stream poll. -/
lemma iteration_evs (env : Env) (r : Reaper) :
    (iteration env r).2.2 = [Ev.sigPoll] ∨
    (iteration env r).2.2 = [Ev.sigPoll, Ev.sweep] ∨
    (iteration env r).2.2 = fullEvs := by
  unfold iteration afterSignal
  cases env.signal r.sigPolls <;> cases r.inner <;>
    cases env.child r.waits <;> simp

/-- Every iteration event list inside a completed poll call's trace has
one of the three shapes. -/
lemma pollFuel_trace_shapes : ∀ (fuel : Nat) (env : Env) (r : Reaper)
    (res : PollRes) (r2 : Reaper) (tr : List (List Ev)),
    pollFuel fuel env r = some (res, r2, tr) →
    ∀ it ∈ tr, it = [Ev.sigPoll] ∨ it = [Ev.sigPoll, Ev.sweep] ∨
      it = fullEvs := by
  intro fuel
  induction fuel with
  | zero => intro env r res r2 tr h; simp [pollFuel] at h
  | succ m ih =>
    intro env r res r2 tr h
    unfold pollFuel at h
    rcases hit : iteration env r with ⟨out, r1, evs⟩
    have hevs : evs = [Ev.sigPoll] ∨ evs = [Ev.sigPoll, Ev.sweep] ∨
        evs = fullEvs := by
      have hpre := iteration_evs env r; rw [hit] at hpre; exact hpre
    rw [hit] at h
    cases out with
    | cont =>
      rcases hp : pollFuel m env r1 with _ | ⟨⟨res1, r3, tr1⟩⟩ <;>
        simp [hp] at h
      obtain ⟨h1, h2, h3⟩ := h
      intro it hmem
      rw [← h3] at hmem
      rcases List.mem_cons.mp hmem with hh | hh
      · rw [hh]; exact hevs
      · exact ih env r1 res1 r3 tr1 hp it hh
    | pending =>
      simp at h
      intro it hmem
      rw [← h.2.2] at hmem
      rw [List.mem_singleton.mp hmem]
      exact hevs
    | readyOk s =>
      simp at h
      intro it hmem
      rw [← h.2.2] at hmem
      rw [List.mem_singleton.mp hmem]
      exact hevs
    | readyErr e =>
      simp at h
      intro it hmem
      rw [← h.2.2] at hmem
      rw [List.mem_singleton.mp hmem]
      exact hevs
    | panicked =>
      simp at h
      intro it hmem
      rw [← h.2.2] at hmem
      rw [List.mem_singleton.mp hmem]
      exact hevs

/-- Concrete environment: stream always Pending, child always running. -/
def envPR : Env :=
  { signal := fun _ => .pending, child := fun _ => .running }

/-- Concrete environment: stream always Pending, child exited with 9. -/
def envExit : Env :=
  { signal := fun _ => .pending, child := fun _ => .exited 9 }

/-- Concrete environment: stream always Pending, child wait errors. -/
def envWErr : Env :=
  { signal := fun _ => .pending, child := fun _ => .err 4 }

/-- Concrete environment: a stale notification first, then a stream error. -/
def envStale : Env :=
  { signal := fun k => if k = 0 then .readyOk 3 else .readyErr 7,
    child := fun _ => .running }

/-- Concrete environment: a stale notification first, then Pending. -/
def envStaleW : Env :=
  { signal := fun k => if k = 0 then .readyOk 1 else .pending,
    child := fun _ => .running }

/-- Concrete environment of the spec's discrete trace: stream answers
{Pending, Ready, Pending, Pending, ...}, child not exited on its first two
waits and exited with status 0 from the third on. -/
def envScenario : Env :=
  { signal := fun k => if k = 1 then .readyOk 17 else .pending,
    child := fun k => if k < 2 then .running else .exited 0 }

/-- Concrete environment: stream exhausted on the first poll, then
Pending; child always running. -/
def envExh : Env :=
  { signal := fun k => if k = 0 then .readyNone else .pending,
    child := fun _ => .running }

/-- Concrete environment: a consumed notification on the first poll, then
Pending; child always running. -/
def envNote : Env :=
  { signal := fun k => if k = 0 then .readyOk 5 else .pending,
    child := fun _ => .running }

/-- Concrete environment: stream always errors. -/
def envSErr : Env :=
  { signal := fun _ => .readyErr 6, child := fun _ => .running }

/-- Concrete environment: stream always Ready(Some(Ok)), child never
exits. -/
def envInf : Env :=
  { signal := fun _ => .readyOk 17, child := fun _ => .running }

/-- C1: in every iteration of Reaper::poll's loop, the signal stream is
polled strictly before the non-blocking try_wait of that iteration: in
every per-iteration event list of a completed poll call, any wait event is
preceded by an earlier sigPoll event. -/
theorem poll_registers_interest_before_wait (env : Env) (fuel : Nat)
    (r : Reaper) (res : PollRes) (r2 : Reaper) (tr : List (List Ev))
    (hpoll : pollFuel fuel env r = some (res, r2, tr)) :
    ∀ it ∈ tr, ∀ j : Nat, it.get? j = some Ev.wait →
      ∃ i : Nat, i < j ∧ it.get? i = some Ev.sigPoll := by
  intro it hmem j hj
  rcases pollFuel_trace_shapes fuel env r res r2 tr hpoll it hmem with
    hsh | hsh | hsh <;> subst hsh
  · rcases j with _ | j
    · simp at hj
    · simp at hj
  · rcases j with _ | _ | j
    · simp at hj
    · simp at hj
    · simp at hj
  · rcases j with _ | _ | _ | j
    · simp [fullEvs] at hj
    · simp [fullEvs] at hj
    · exact ⟨0, by omega, rfl⟩
    · simp [fullEvs] at hj

/-- C1 witness: the single iteration of a Pending poll on a running child
has its wait event at index 2, preceded by the sigPoll event at index 0. -/
theorem poll_registers_interest_before_wait_witness :
    ∃ i : Nat, i < 2 ∧ fullEvs.get? i = some Ev.sigPoll :=
  poll_registers_interest_before_wait envPR 1 newReaper .pending
    (advance newReaper) [fullEvs] (by decide) fullEvs
    (List.mem_singleton.mpr rfl) 2 rfl

/-- C8: when the signal stream answers Ready(Some(Err(e))), poll returns
Ready(Err(e)) immediately: one iteration whose only event is the stream
poll, no sweep, no try_wait, and the state shows sweeps and waits
unchanged. -/
theorem stream_error_propagates_immediately (env : Env) (fuel : Nat)
    (r : Reaper) (e : Nat) (hs : env.signal r.sigPolls = .readyErr e) :
    pollFuel (fuel + 1) env r =
      some (.readyErr e, { r with sigPolls := r.sigPolls + 1 },
        [[Ev.sigPoll]]) := by
  have hit : iteration env r =
      (.readyErr e, { r with sigPolls := r.sigPolls + 1 }, [Ev.sigPoll]) := by
    unfold iteration
    rw [hs]
  simp [pollFuel, hit]

/-- C8 witness: with a stream that errors at once, one unit of fuel
returns Ready(Err(6)) with no sweep and no wait counted. -/
theorem stream_error_propagates_immediately_witness :
    pollFuel 1 envSErr newReaper =
      some (.readyErr 6,
        { inner := some (), sigPolls := 1, sweeps := 0, waits := 0 },
        [[Ev.sigPoll]]) :=
  stream_error_propagates_immediately envSErr 0 newReaper 6 rfl

/-- C4: dropping a Reaper whose final try_wait answers Ok(None) performs
exactly one push_orphan, moving the handle out; when it answers Ok(Some)
it performs zero push_orphan calls and the handle stays to be discarded. -/
theorem drop_admission_iff_not_exited (env : Env) (r : Reaper)
    (hi : r.inner = some ()) :
    (env.child r.waits = .running →
      dropReaper env r =
        some ({ r with waits := r.waits + 1, inner := none }, 1)) ∧
    (∀ s, env.child r.waits = .exited s →
      dropReaper env r = some ({ r with waits := r.waits + 1 }, 0)) := by
  constructor
  · intro hc
    simp [dropReaper, hi, hc]
  · intro s hc
    simp [dropReaper, hi, hc]

/-- C4 witness: dropping with a running child admits once; dropping with
an exited child admits nothing. -/
theorem drop_admission_iff_not_exited_witness :
    dropReaper envPR newReaper =
      some ({ inner := none, sigPolls := 0, sweeps := 0, waits := 1 }, 1) ∧
    dropReaper envExit newReaper =
      some ({ inner := some (), sigPolls := 0, sweeps := 0, waits := 1 }, 0) :=
  ⟨(drop_admission_iff_not_exited envPR newReaper rfl).1 rfl,
    (drop_admission_iff_not_exited envExit newReaper rfl).2 9 rfl⟩

/-- C5 counterexample: when the final try_wait at drop errors, the code
does not discard the handle: it performs one push_orphan admission, not
zero as the claim states. -/
theorem drop_on_wait_error_counterexample :
    envWErr.child newReaper.waits = .err 4 ∧
    dropReaper envWErr newReaper =
      some ({ inner := none, sigPolls := 0, sweeps := 0, waits := 1 }, 1) ∧
    (1 : Nat) ≠ 0 := by
  refine ⟨rfl, rfl, by decide⟩

/-- C5 amended: when the final try_wait at drop errors, the handle is
treated like a still-running child: it is taken out and admitted to the
orphan registry with exactly one push_orphan call. -/
theorem drop_on_wait_error_admits (env : Env) (r : Reaper) (e : Nat)
    (hi : r.inner = some ()) (he : env.child r.waits = .err e) :
    dropReaper env r =
      some ({ r with waits := r.waits + 1, inner := none }, 1) := by
  simp [dropReaper, hi, he]

/-- C5 witness: the erroring drop admits exactly once. -/
theorem drop_on_wait_error_admits_witness :
    dropReaper envWErr newReaper =
      some ({ inner := none, sigPolls := 0, sweeps := 0, waits := 1 }, 1) :=
  drop_on_wait_error_admits envWErr newReaper 4 rfl rfl

/-- C7 counterexample: after the stream answers Ready(None) the reaper
simply loops again exactly as after a consumable notification: the run
under early exhaustion equals, result, state and trace, the run under an
early Ready(Some(Ok)), looping once and then returning Pending, so
exhaustion is not treated as fatal. -/
theorem stream_exhaustion_counterexample :
    pollFuel 3 envExh newReaper =
      some (.pending,
        { inner := some (), sigPolls := 2, sweeps := 2, waits := 2 },
        [fullEvs, fullEvs]) ∧
    pollFuel 3 envNote newReaper = pollFuel 3 envExh newReaper := by
  constructor <;> decide

/-- C7 amended: when the stream answers Ready(None) and the child is still
running, the iteration treats the exhaustion exactly like a consumed
notification: registered interest is false and the loop continues. -/
theorem stream_exhaustion_loops (env : Env) (r : Reaper)
    (hi : r.inner = some ()) (hs : env.signal r.sigPolls = .readyNone)
    (hc : env.child r.waits = .running) :
    iteration env r = (.cont, advance r, fullEvs) :=
  iteration_cont_of env r hi (by rw [hs]; rfl) hc

/-- C7 witness: the exhausted stream's first iteration loops. -/
theorem stream_exhaustion_loops_witness :
    iteration envExh newReaper = (.cont, advance newReaper, fullEvs) :=
  stream_exhaustion_loops envExh newReaper rfl rfl rfl

/-- C2 counterexample: the stream answers Ready(Some(Ok)) and the child is
running, yet the call performs only one try_wait in total, because the
re-poll of the stream answers Ready(Some(Err(7))) and poll returns
Ready(Err(7)) without waiting again; the claim's "try_wait at least once
more" fails. -/
theorem stale_notification_counterexample :
    envStale.signal 0 = .readyOk 3 ∧ envStale.child 0 = .running ∧
    pollFuel 2 envStale newReaper =
      some (.readyErr 7,
        { inner := some (), sigPolls := 2, sweeps := 1, waits := 1 },
        [fullEvs, [Ev.sigPoll]]) ∧
    ¬ 2 ≤ ({ inner := some (), sigPolls := 2, sweeps := 1, waits := 1 } : Reaper).waits := by
  refine ⟨rfl, rfl, by decide, by decide⟩

/-- C2 amended: when the stream answers Ready(Some(Ok)) and the child's
try_wait answers Ok(None), poll does not return at that point: the
iteration continues the loop, any completed call polled the stream at
least once more, and, unless that re-poll answered Ready(Some(Err)), any
completed call also performed at least one more try_wait. -/
theorem stale_notification_reloops (env : Env) (r : Reaper) (n : Nat)
    (hi : r.inner = some ()) (hs : env.signal r.sigPolls = .readyOk n)
    (hc : env.child r.waits = .running) :
    iteration env r = (.cont, advance r, fullEvs) ∧
    (∀ fuel res r2 tr, pollFuel fuel env r = some (res, r2, tr) →
      r.sigPolls + 2 ≤ r2.sigPolls) ∧
    ((∀ e, env.signal (r.sigPolls + 1) ≠ SigItem.readyErr e) →
      ∀ fuel res r2 tr, pollFuel fuel env r = some (res, r2, tr) →
        r.waits + 2 ≤ r2.waits) := by
  have hcont := iteration_cont_of env r hi (by rw [hs]; rfl) hc
  refine ⟨hcont, ?_, ?_⟩
  · intro fuel res r2 tr hp
    cases fuel with
    | zero => simp [pollFuel] at hp
    | succ m =>
      unfold pollFuel at hp
      rw [hcont] at hp
      rcases hq : pollFuel m env (advance r) with _ | ⟨⟨res1, r3, tr1⟩⟩ <;>
        simp [hq] at hp
      obtain ⟨h1, h2, h3⟩ := hp
      have hst := pollFuel_sig_strict m env (advance r) res1 r3 tr1 hq
      have hadv : (advance r).sigPolls = r.sigPolls + 1 := rfl
      subst h2
      omega
  · intro hne fuel res r2 tr hp
    cases fuel with
    | zero => simp [pollFuel] at hp
    | succ m =>
      unfold pollFuel at hp
      rw [hcont] at hp
      rcases hq : pollFuel m env (advance r) with _ | ⟨⟨res1, r3, tr1⟩⟩ <;>
        simp [hq] at hp
      obtain ⟨h1, h2, h3⟩ := hp
      have hadvi : (advance r).inner = some () := hi
      have hne1 : ∀ e, env.signal (advance r).sigPolls ≠ SigItem.readyErr e := by
        have hadv : (advance r).sigPolls = r.sigPolls + 1 := rfl
        rw [hadv]
        exact hne
      have hst := pollFuel_waits_strict m env (advance r) res1 r3 tr1
        hadvi hne1 hq
      have hadvw : (advance r).waits = r.waits + 1 := rfl
      subst h2
      omega

/-- C2 witness: with a stale notification then Pending, the first
iteration loops, and the completed two-iteration call shows two stream
polls and two waits. -/
theorem stale_notification_reloops_witness :
    iteration envStaleW newReaper = (.cont, advance newReaper, fullEvs) ∧
    newReaper.sigPolls + 2 ≤ 2 ∧ newReaper.waits + 2 ≤ 2 := by
  obtain ⟨w1, w2, w3⟩ := stale_notification_reloops envStaleW newReaper 1
    rfl rfl rfl
  refine ⟨w1, ?_, ?_⟩
  · exact w2 2 .pending
      { inner := some (), sigPolls := 2, sweeps := 2, waits := 2 }
      [fullEvs, fullEvs] (by decide)
  · refine w3 ?_ 2 .pending
      { inner := some (), sigPolls := 2, sweeps := 2, waits := 2 }
      [fullEvs, fullEvs] (by decide)
    intro e h
    simp [envStaleW] at h

/-- C3: for an idempotent-post-exit child, once a try_wait inside a poll
call reports Ok(Some(s)), that call resolves with Ready(Ok(s)) at exactly
that wait (it is the call's last, and the call performed exactly as many
stream polls as waits, so nothing follows the resolving wait), and a
subsequent drop performs zero push_orphan admissions. -/
theorem resolution_exact_and_drop_clean (env : Env) (fuel : Nat)
    (r : Reaper) (res : PollRes) (r2 : Reaper) (tr : List (List Ev))
    (j s : Nat)
    (hidem : ∀ i k t, env.child i = .exited t → i ≤ k →
      env.child k = .exited t)
    (hi : r.inner = some ())
    (hpoll : pollFuel fuel env r = some (res, r2, tr))
    (hj1 : r.waits ≤ j) (hj2 : j < r2.waits)
    (hs : env.child j = .exited s) :
    res = .readyOk s ∧ j + 1 = r2.waits ∧
    r2.sigPolls + r.waits = r2.waits + r.sigPolls ∧
    dropReaper env r2 = some ({ r2 with waits := r2.waits + 1 }, 0) := by
  obtain ⟨hA, hB⟩ := pollFuel_run fuel env r res r2 tr hi hpoll
  have hj3 : j + 1 = r2.waits := by
    by_contra hne
    have hlt : j + 1 < r2.waits := by omega
    have hr := hA j hj1 hlt
    rw [hr] at hs
    cases hs
  have hlt : r.waits < r2.waits := by omega
  have hex : env.child (r2.waits - 1) = .exited s := by
    have hj4 : r2.waits - 1 = j := by omega
    rw [hj4]
    exact hs
  obtain ⟨hres, harith⟩ := hB s hlt hex
  have hi2 : r2.inner = some () := by
    rw [pollFuel_inner fuel env r res r2 tr hpoll]
    exact hi
  have hnext : env.child r2.waits = .exited s :=
    hidem j r2.waits s hs (by omega)
  refine ⟨hres, hj3, harith, ?_⟩
  simp [dropReaper, hi2, hnext]

/-- C3 witness: a child exited with status 9 from the start resolves the
first poll call at its first wait with Ready(Ok(9)), one stream poll to
one wait, and the drop after it admits nothing. -/
theorem resolution_exact_and_drop_clean_witness :
    PollRes.readyOk 9 = PollRes.readyOk 9 ∧ 0 + 1 = 1 ∧ 1 + 0 = 1 + 0 ∧
    dropReaper envExit
        { inner := some (), sigPolls := 1, sweeps := 1, waits := 1 } =
      some ({ inner := some (), sigPolls := 1, sweeps := 1, waits := 2 },
        0) :=
  resolution_exact_and_drop_clean envExit 1 newReaper (.readyOk 9)
    { inner := some (), sigPolls := 1, sweeps := 1, waits := 1 }
    [fullEvs] 0 9 (fun i k t h hk => h) rfl (by decide) (by decide)
    (by decide) rfl

/-- C6 counterexample: in the spec's discrete trace the second poll call
does not return Pending: its second iteration's try_wait (the third wait
call overall) already reports the exit, so the call returns Ready(Ok(0)). -/
theorem scenario_trace_counterexample :
    pollFuel 5 envScenario
        { inner := some (), sigPolls := 1, sweeps := 1, waits := 1 } =
      some (.readyOk 0,
        { inner := some (), sigPolls := 3, sweeps := 3, waits := 3 },
        [fullEvs, fullEvs]) ∧
    PollRes.readyOk 0 ≠ PollRes.pending := by
  constructor <;> decide

/-- C6 amended: in the spec's discrete trace, poll 1 returns Pending after
one stream poll, one sweep and one wait, and poll 2 loops once and returns
Ready(Ok(0)) with two stream polls, two sweeps and two waits within that
call; no third poll happens. -/
theorem scenario_trace_actual :
    pollFuel 5 envScenario newReaper =
      some (.pending,
        { inner := some (), sigPolls := 1, sweeps := 1, waits := 1 },
        [fullEvs]) ∧
    pollFuel 5 envScenario
        { inner := some (), sigPolls := 1, sweeps := 1, waits := 1 } =
      some (.readyOk 0,
        { inner := some (), sigPolls := 3, sweeps := 3, waits := 3 },
        [fullEvs, fullEvs]) := by
  constructor <;> decide

/-- C9: the inner slot is Some from construction on, every completed poll
call both preserves it and succeeds in its unwrap (never the panicked
outcome), the unwraps of kill and Deref succeed, and drop's unwrap
succeeds and takes the handle out exactly when it admits it to the
registry (once), leaving it in place to be discarded when the child had
already exited. -/
theorem inner_some_invariant (env : Env) (r : Reaper)
    (hi : r.inner = some ()) :
    newReaper.inner = some () ∧
    (∀ fuel res r2 tr, pollFuel fuel env r = some (res, r2, tr) →
      r2.inner = some () ∧ res ≠ .panicked) ∧
    killReaper r = some r ∧
    derefReaper r = some () ∧
    dropReaper env r ≠ none ∧
    (∀ r2 p, dropReaper env r = some (r2, p) →
      (p = 0 ∧ r2.inner = some ()) ∨ (p = 1 ∧ r2.inner = none)) := by
  refine ⟨rfl, ?_, ?_, hi, ?_, ?_⟩
  · intro fuel res r2 tr hp
    constructor
    · rw [pollFuel_inner fuel env r res r2 tr hp]
      exact hi
    · exact pollFuel_not_panicked fuel env r res r2 tr hi hp
  · simp [killReaper, hi]
  · cases hc : env.child r.waits <;> simp [dropReaper, hi, hc]
  · intro r2 p hd
    cases hc : env.child r.waits <;> simp [dropReaper, hi, hc] at hd <;>
      obtain ⟨h1, h2⟩ := hd
    · right
      rw [← h1, ← h2]
      exact ⟨rfl, rfl⟩
    · left
      rw [← h1, ← h2]
      exact ⟨rfl, rfl⟩
    · right
      rw [← h1, ← h2]
      exact ⟨rfl, rfl⟩

/-- C9 witness: with a running child, poll's unwrap succeeds and preserves
the inner slot, kill and Deref unwraps succeed, and drop takes the handle
out exactly once, admitting it once. -/
theorem inner_some_invariant_witness :
    newReaper.inner = some () ∧
    ({ inner := some (), sigPolls := 1, sweeps := 1, waits := 1 } : Reaper).inner = some () ∧
    PollRes.pending ≠ PollRes.panicked ∧
    killReaper newReaper = some newReaper ∧
    derefReaper newReaper = some () ∧
    dropReaper envPR newReaper ≠ none ∧
    ((1 = 0 ∧ ({ inner := none, sigPolls := 0, sweeps := 0, waits := 1 } : Reaper).inner = some ()) ∨
      (1 = 1 ∧ ({ inner := none, sigPolls := 0, sweeps := 0, waits := 1 } : Reaper).inner = none)) := by
  obtain ⟨w1, w2, w3, w4, w5, w6⟩ := inner_some_invariant envPR newReaper rfl
  obtain ⟨wa, wb⟩ := w2 1 .pending
    { inner := some (), sigPolls := 1, sweeps := 1, waits := 1 }
    [fullEvs] (by decide)
  exact ⟨w1, wa, wb, w3, w4, w5,
    w6 { inner := none, sigPolls := 0, sweeps := 0, waits := 1 } 1 (by decide)⟩

/-- C10: a poll call returns for some fuel exactly when some iteration
state reaches a terminating outcome (stream Pending or Ready(Some(Err)),
or child Ok(Some) or Err); in particular, when the stream always answers
Ready(Some(Ok)) or Ready(None) and the child always answers Ok(None), poll
loops forever: no fuel completes it. -/
theorem poll_terminates_iff_stop (env : Env) (r : Reaper)
    (hi : r.inner = some ()) :
    ((∃ fuel out, pollFuel fuel env r = some out) ↔
      (∃ n, termAtB env (advanceN n r) = true)) ∧
    ((∀ k, r.sigPolls ≤ k →
        ((∃ m, env.signal k = .readyOk m) ∨ env.signal k = .readyNone)) →
      (∀ k, r.waits ≤ k → env.child k = .running) →
      ∀ fuel, pollFuel fuel env r = none) := by
  constructor
  · constructor
    · rintro ⟨fuel, out, hp⟩
      exact termAt_of_pollFuel fuel env r hi out hp
    · rintro ⟨n, ht⟩
      exact pollFuel_total_of_termAt n env r hi ht
  · intro hsig hch fuel
    cases hq : pollFuel fuel env r with
    | none => rfl
    | some out =>
      exfalso
      obtain ⟨n, ht⟩ := termAt_of_pollFuel fuel env r hi out hq
      have h1 : (advanceN n r).sigPolls = r.sigPolls + n :=
        advanceN_sigPolls n r
      have h2 : (advanceN n r).waits = r.waits + n := advanceN_waits n r
      have hsf : sigStopsB (env.signal (advanceN n r).sigPolls) = false := by
        rcases hsig ((advanceN n r).sigPolls) (by omega) with ⟨m, hm⟩ | hm <;>
          rw [hm] <;> rfl
      have hcf : childStopsB (env.child (advanceN n r).waits) = false := by
        rw [hch ((advanceN n r).waits) (by omega)]
        rfl
      rw [termAtB, hsf, hcf] at ht
      simp at ht

/-- C10 witness: a stream that always has a notification ready and a child
that never exits make poll loop forever: three units of fuel do not
complete it. -/
theorem poll_terminates_iff_stop_witness :
    pollFuel 3 envInf newReaper = none := by
  have h := poll_terminates_iff_stop envInf newReaper rfl
  exact h.2 (fun k hk => Or.inl ⟨17, rfl⟩) (fun k hk => rfl) 3
